import Mathlib

/-!
Verification of the statistical aggregation routines of the fitbit-dashboard
repository: time-in-range classification, daily summaries, hourly percentile
profiles (AGP), and the least-squares trend line of the correlations page.

The backend endpoints (`get_glucose_time_in_range`, `get_glucose_daily`,
`get_glucose_agp`) are Python; `linearRegression` is TypeScript.  They are
embedded here over exact rationals:

* glucose values are stored as SQL `Integer`, so readings are `ℤ`;
* timestamps enter the computations only through their calendar date
  (daily grouping) or their hour-of-day component (AGP grouping), so a
  reading is modelled as a pair of a date index (`ℕ`) respectively an hour
  (`ℕ`) and a value;
* Python `round` is round-half-to-even (`roundHalfEven`, and `round1` for
  `round(x, 1)`); Python `int(...)` truncates toward zero (`int_trunc`);
* `np.percentile` uses linear interpolation between order statistics over
  the sorted data (`percentile` below, built on `interpAt`).
-/

/-- Python `round(q)`: nearest integer, ties to the even integer. -/
def roundHalfEven (q : ℚ) : ℤ :=
  if q - (⌊q⌋ : ℚ) < 1/2 then ⌊q⌋
  else if 1/2 < q - (⌊q⌋ : ℚ) then ⌊q⌋ + 1
  else if ⌊q⌋ % 2 = 0 then ⌊q⌋ else ⌊q⌋ + 1

/-- Python `round(q, 1)`: round to one decimal place, ties to even. -/
def round1 (q : ℚ) : ℚ :=
  (roundHalfEven (10 * q) : ℚ) / 10

/-- Round-half-up to the nearest integer.  Modelled from the spec: the spec
prescribes the rounding policy "round-half-up to nearest whole unit" for the
daily `avg`; this definition follows those words and is compared against the
code's `roundHalfEven`. -/
def roundHalfUp (q : ℚ) : ℤ :=
  ⌊q + 1/2⌋

/-- Python `int(q)`: truncation toward zero. -/
def int_trunc (q : ℚ) : ℤ :=
  if 0 ≤ q then ⌊q⌋ else ⌈q⌉

lemma floor_eq_of_bounds (q : ℚ) (z : ℤ) (h1 : (z : ℚ) ≤ q) (h2 : q < z + 1) :
    ⌊q⌋ = z :=
  Int.floor_eq_iff.mpr ⟨h1, h2⟩

lemma roundHalfEven_intCast (z : ℤ) : roundHalfEven (z : ℚ) = z := by
  unfold roundHalfEven
  rw [Int.floor_intCast]
  norm_num

lemma roundHalfEven_tie_even (q : ℚ) (z : ℤ) (hq : q = (z : ℚ) + 1/2)
    (hz : z % 2 = 0) : roundHalfEven q = z := by
  have hfl : ⌊q⌋ = z := floor_eq_of_bounds q z (by rw [hq]; norm_num) (by rw [hq]; norm_num)
  unfold roundHalfEven
  rw [hfl, hq]
  norm_num [hz]

lemma floor_le_roundHalfEven (q : ℚ) : ⌊q⌋ ≤ roundHalfEven q := by
  unfold roundHalfEven
  split_ifs <;> omega

lemma roundHalfEven_le_floor_add_one (q : ℚ) : roundHalfEven q ≤ ⌊q⌋ + 1 := by
  unfold roundHalfEven
  split_ifs <;> omega

lemma abs_roundHalfEven_sub_le (q : ℚ) : |(roundHalfEven q : ℚ) - q| ≤ 1/2 := by
  have h0 : (⌊q⌋ : ℚ) ≤ q := Int.floor_le q
  have h1 : q < (⌊q⌋ : ℚ) + 1 := Int.lt_floor_add_one q
  unfold roundHalfEven
  split_ifs with hA hB hC <;> rw [abs_le] <;> constructor <;> push_cast <;> linarith

lemma roundHalfEven_mono {x y : ℚ} (h : x ≤ y) :
    roundHalfEven x ≤ roundHalfEven y := by
  have hfl : ⌊x⌋ ≤ ⌊y⌋ := Int.floor_le_floor h
  rcases lt_or_eq_of_le hfl with hlt | heq
  · calc roundHalfEven x ≤ ⌊x⌋ + 1 := roundHalfEven_le_floor_add_one x
      _ ≤ ⌊y⌋ := by omega
      _ ≤ roundHalfEven y := floor_le_roundHalfEven y
  · unfold roundHalfEven
    rw [← heq]
    split_ifs <;> first
      | omega
      | (exfalso; linarith)

lemma round1_eq_of_mul_ten (q : ℚ) (n : ℤ) (h : 10 * q = (n : ℚ)) :
    round1 q = (n : ℚ) / 10 := by
  unfold round1
  rw [h, roundHalfEven_intCast]

lemma abs_round1_sub_le (q : ℚ) : |round1 q - q| ≤ 1/20 := by
  have h := abs_roundHalfEven_sub_le (10 * q)
  unfold round1
  have heq : (roundHalfEven (10 * q) : ℚ) / 10 - q
      = ((roundHalfEven (10 * q) : ℚ) - 10 * q) / 10 := by ring
  rw [heq, abs_div]
  rw [show |(10 : ℚ)| = 10 by norm_num]
  linarith

lemma round1_mono {x y : ℚ} (h : x ≤ y) : round1 x ≤ round1 y := by
  unfold round1
  have := roundHalfEven_mono (show 10 * x ≤ 10 * y by linarith)
  have hc : (roundHalfEven (10 * x) : ℚ) ≤ (roundHalfEven (10 * y) : ℚ) := by
    exact_mod_cast this
  linarith

lemma int_trunc_intCast (z : ℤ) : int_trunc (z : ℚ) = z := by
  unfold int_trunc
  split_ifs <;> simp

lemma int_trunc_mono {x y : ℚ} (h : x ≤ y) : int_trunc x ≤ int_trunc y := by
  unfold int_trunc
  by_cases hx : 0 ≤ x <;> by_cases hy : 0 ≤ y
  · rw [if_pos hx, if_pos hy]; exact Int.floor_le_floor h
  · exact absurd (le_trans hx h) hy
  · rw [if_neg hx, if_pos hy]
    calc ⌈x⌉ ≤ 0 := Int.ceil_le.mpr (by exact_mod_cast le_of_not_le hx)
      _ ≤ ⌊y⌋ := Int.le_floor.mpr (by exact_mod_cast hy)
  · rw [if_neg hx, if_neg hy]; exact Int.ceil_le_ceil h

/-!
## Time in range (`get_glucose_time_in_range`, backend)

The endpoint queries the readings of the window and classifies each value
against the request's `low_threshold` / `high_threshold` (defaults 70/180)
and the fixed clinical constants 54 / 250; the in-range count is the
remainder `total - low - high`.
-/

/-- `sum(1 for r in readings if r.value < t)`. -/
def low_count (readings : List ℤ) (t : ℤ) : ℕ :=
  (readings.filter (fun v => decide (v < t))).length

/-- `sum(1 for r in readings if r.value > t)`. -/
def high_count (readings : List ℤ) (t : ℤ) : ℕ :=
  (readings.filter (fun v => decide (t < v))).length

/-- `very_low = sum(1 for r in readings if r.value < 54)`. -/
def very_low_count (readings : List ℤ) : ℕ :=
  low_count readings 54

/-- `very_high = sum(1 for r in readings if r.value > 250)`. -/
def very_high_count (readings : List ℤ) : ℕ :=
  high_count readings 250

/-- `in_range = total - low - high` (an integer: it can be negative). -/
def in_range_count (readings : List ℤ) (low_threshold high_threshold : ℤ) : ℤ :=
  (readings.length : ℤ) - low_count readings low_threshold - high_count readings high_threshold

/-- The JSON object returned by the time-in-range endpoint. -/
structure RangeBreakdown where
  total_readings : ℕ
  in_range_percent : ℚ
  low_percent : ℚ
  high_percent : ℚ
  very_low_percent : ℚ
  very_high_percent : ℚ

/-- `get_glucose_time_in_range`: early all-zero return on no readings,
otherwise each percentage is `count / total * 100` rounded to 1 decimal. -/
def get_glucose_time_in_range (readings : List ℤ)
    (low_threshold high_threshold : ℤ) : RangeBreakdown :=
  if readings = [] then
    { total_readings := 0
      in_range_percent := 0
      low_percent := 0
      high_percent := 0
      very_low_percent := 0
      very_high_percent := 0 }
  else
    { total_readings := readings.length
      in_range_percent :=
        round1 ((in_range_count readings low_threshold high_threshold : ℚ)
          / (readings.length : ℚ) * 100)
      low_percent :=
        round1 ((low_count readings low_threshold : ℚ) / (readings.length : ℚ) * 100)
      high_percent :=
        round1 ((high_count readings high_threshold : ℚ) / (readings.length : ℚ) * 100)
      very_low_percent :=
        round1 ((very_low_count readings : ℚ) / (readings.length : ℚ) * 100)
      very_high_percent :=
        round1 ((very_high_count readings : ℚ) / (readings.length : ℚ) * 100) }

lemma filter_length_mono {p q : ℤ → Bool} (h : ∀ v, p v = true → q v = true) :
    ∀ R : List ℤ, (R.filter p).length ≤ (R.filter q).length := by
  intro R
  induction R with
  | nil => simp
  | cons a t ih =>
    by_cases hp : p a = true
    · have hq := h a hp
      simp only [List.filter_cons, hp, hq, if_true, List.length_cons]
      omega
    · have hp2 : p a = false := by revert hp; cases p a <;> simp
      by_cases hq : q a = true
      · simp [List.filter_cons, hp2, hq]
        omega
      · have hq2 : q a = false := by revert hq; cases q a <;> simp
        simp [List.filter_cons, hp2, hq2]
        exact ih

lemma low_count_mono (R : List ℤ) {t1 t2 : ℤ} (h : t1 ≤ t2) :
    low_count R t1 ≤ low_count R t2 := by
  refine filter_length_mono (fun v hv => ?_) R
  simp only [decide_eq_true_eq] at hv ⊢
  omega

lemma high_count_anti (R : List ℤ) {t1 t2 : ℤ} (h : t1 ≤ t2) :
    high_count R t2 ≤ high_count R t1 := by
  refine filter_length_mono (fun v hv => ?_) R
  simp only [decide_eq_true_eq] at hv ⊢
  omega

/-- Three exact percentages summing to 100 still sum to 100 within one tenth
after each is rounded to one decimal place: the rounded sum is a multiple of
`1/10` at distance at most `3/20` from 100, hence at distance at most `1/10`. -/
lemma round1_sum_three (a b c : ℚ) (hsum : a + b + c = 100) :
    |round1 a + round1 b + round1 c - 100| ≤ 1/10 := by
  have herr : |round1 a + round1 b + round1 c - 100| ≤ 3/20 := by
    have e1 := abs_round1_sub_le a
    have e2 := abs_round1_sub_le b
    have e3 := abs_round1_sub_le c
    have heq2 : round1 a + round1 b + round1 c - 100
        = (round1 a - a) + (round1 b - b) + (round1 c - c) := by
      rw [← hsum]; ring
    rw [heq2]
    calc |(round1 a - a) + (round1 b - b) + (round1 c - c)|
        ≤ |(round1 a - a) + (round1 b - b)| + |round1 c - c| := abs_add _ _
      _ ≤ |round1 a - a| + |round1 b - b| + |round1 c - c| := by
          linarith [abs_add (round1 a - a) (round1 b - b)]
      _ ≤ 3/20 := by linarith
  set k : ℤ := roundHalfEven (10 * a) + roundHalfEven (10 * b)
      + roundHalfEven (10 * c) - 1000 with hk
  have hkq : round1 a + round1 b + round1 c - 100 = (k : ℚ) / 10 := by
    rw [hk]; unfold round1; push_cast; ring
  have hk32 : |(k : ℚ)| ≤ 3/2 := by
    have h10 : |(k : ℚ) / 10| ≤ 3/20 := by rw [← hkq]; exact herr
    rw [abs_div, show |(10 : ℚ)| = 10 by norm_num] at h10
    linarith
  have hk1 : |k| ≤ 1 := by
    by_contra hcon
    push_neg at hcon
    have h2 : (2 : ℤ) ≤ |k| := by omega
    have h2q : (2 : ℚ) ≤ |(k : ℚ)| := by
      rw [← Int.cast_abs]
      exact_mod_cast h2
    linarith
  rw [hkq, abs_div, show |(10 : ℚ)| = 10 by norm_num]
  have hq1 : |(k : ℚ)| ≤ 1 := by
    rw [← Int.cast_abs]
    exact_mod_cast hk1
  linarith

/-- C1 (amended: over any NONEMPTY collection of readings): the three rounded
percentages of a time-in-range breakdown sum to 100 within 0.1, for any
thresholds.  The unrounded percentages sum to exactly 100 because
`in_range = total - low - high`. -/
theorem C1_percent_sum_close_to_100 (readings : List ℤ)
    (low_threshold high_threshold : ℤ) (h : readings ≠ []) :
    |(get_glucose_time_in_range readings low_threshold high_threshold).in_range_percent
      + (get_glucose_time_in_range readings low_threshold high_threshold).low_percent
      + (get_glucose_time_in_range readings low_threshold high_threshold).high_percent
      - 100| ≤ 1/10 := by
  have hlenpos : 0 < readings.length := List.length_pos.mpr h
  have hlen0 : ((readings.length : ℚ)) ≠ 0 := by
    have : (0 : ℚ) < (readings.length : ℚ) := by exact_mod_cast hlenpos
    exact this.ne'
  simp only [get_glucose_time_in_range, if_neg h]
  apply round1_sum_three
  unfold in_range_count
  push_cast
  field_simp
  ring

/-- C1, counterexample to the claim as stated: on the EMPTY collection the
endpoint returns all-zero percentages, whose sum 0 is not within 0.1 of 100. -/
theorem C1_percent_sum_empty_cex :
    (get_glucose_time_in_range [] 70 180).in_range_percent
      + (get_glucose_time_in_range [] 70 180).low_percent
      + (get_glucose_time_in_range [] 70 180).high_percent = 0 ∧
    ¬(|(0 : ℚ) - 100| ≤ 1/10) := by
  constructor
  · norm_num [get_glucose_time_in_range]
  · rw [show (0 : ℚ) - 100 = -100 by norm_num, abs_neg,
      abs_of_nonneg (by norm_num : (0 : ℚ) ≤ 100)]
    norm_num

/-- C1, witness: the bound holds at the concrete scenario input. -/
theorem C1_percent_sum_witness :
    |(get_glucose_time_in_range [60, 100, 120, 200] 70 180).in_range_percent
      + (get_glucose_time_in_range [60, 100, 120, 200] 70 180).low_percent
      + (get_glucose_time_in_range [60, 100, 120, 200] 70 180).high_percent
      - 100| ≤ 1/10 :=
  C1_percent_sum_close_to_100 [60, 100, 120, 200] 70 180 (by decide)

/-- C4: Scenario A.  Readings `[60, 100, 120, 200]` with default thresholds
70/180 give 50% in range, 25% low, 25% high and 0% very-low / very-high. -/
theorem C4_tir_scenario_defaults :
    (get_glucose_time_in_range [60, 100, 120, 200] 70 180).total_readings = 4 ∧
    (get_glucose_time_in_range [60, 100, 120, 200] 70 180).in_range_percent = 50 ∧
    (get_glucose_time_in_range [60, 100, 120, 200] 70 180).low_percent = 25 ∧
    (get_glucose_time_in_range [60, 100, 120, 200] 70 180).high_percent = 25 ∧
    (get_glucose_time_in_range [60, 100, 120, 200] 70 180).very_low_percent = 0 ∧
    (get_glucose_time_in_range [60, 100, 120, 200] 70 180).very_high_percent = 0 := by
  have hne : ([60, 100, 120, 200] : List ℤ) ≠ [] := by decide
  have hin : in_range_count [60, 100, 120, 200] 70 180 = 2 := by decide
  have hlow : low_count [60, 100, 120, 200] 70 = 1 := by decide
  have hhigh : high_count [60, 100, 120, 200] 180 = 1 := by decide
  have hvl : very_low_count [60, 100, 120, 200] = 0 := by decide
  have hvh : very_high_count [60, 100, 120, 200] = 0 := by decide
  have hlen : ([60, 100, 120, 200] : List ℤ).length = 4 := by decide
  simp only [get_glucose_time_in_range, if_neg hne, hin, hlow, hhigh, hvl, hvh, hlen]
  refine ⟨by trivial, ?_, ?_, ?_, ?_, ?_⟩
  · rw [round1_eq_of_mul_ten _ 500 (by push_cast; norm_num)]; norm_num
  · rw [round1_eq_of_mul_ten _ 250 (by push_cast; norm_num)]; norm_num
  · rw [round1_eq_of_mul_ten _ 250 (by push_cast; norm_num)]; norm_num
  · rw [round1_eq_of_mul_ten _ 0 (by push_cast; norm_num)]; norm_num
  · rw [round1_eq_of_mul_ten _ 0 (by push_cast; norm_num)]; norm_num

/-- C8: with zero readings the endpoint takes the early return and yields
`total_readings = 0` with every percentage 0; the divisions by `total` are
only in the non-empty branch. -/
theorem C8_tir_empty_all_zero (low_threshold high_threshold : ℤ) :
    get_glucose_time_in_range [] low_threshold high_threshold =
      { total_readings := 0
        in_range_percent := 0
        low_percent := 0
        high_percent := 0
        very_low_percent := 0
        very_high_percent := 0 } := rfl

/-- C5 (amended: provided `54 ≤ low_threshold` and `high_threshold ≤ 250`,
which includes the defaults 70/180): the very-low bucket is nested in the low
bucket and the very-high bucket in the high bucket, so
`veryLowPercent ≤ lowPercent` and `veryHighPercent ≤ highPercent`. -/
theorem C5_subthresholds_nested (readings : List ℤ)
    (low_threshold high_threshold : ℤ)
    (hl : 54 ≤ low_threshold) (hh : high_threshold ≤ 250) :
    (get_glucose_time_in_range readings low_threshold high_threshold).very_low_percent
      ≤ (get_glucose_time_in_range readings low_threshold high_threshold).low_percent ∧
    (get_glucose_time_in_range readings low_threshold high_threshold).very_high_percent
      ≤ (get_glucose_time_in_range readings low_threshold high_threshold).high_percent := by
  by_cases hne : readings = []
  · subst hne
    constructor <;> simp [get_glucose_time_in_range]
  · have hlenpos : (0 : ℚ) < (readings.length : ℚ) := by
      exact_mod_cast List.length_pos.mpr hne
    simp only [get_glucose_time_in_range, if_neg hne]
    constructor
    · apply round1_mono
      have hc : (very_low_count readings : ℚ) ≤ (low_count readings low_threshold : ℚ) := by
        have hc0 : very_low_count readings ≤ low_count readings low_threshold :=
          low_count_mono readings hl
        exact_mod_cast hc0
      exact mul_le_mul_of_nonneg_right ((div_le_div_iff_of_pos_right hlenpos).mpr hc) (by norm_num)
    · apply round1_mono
      have hc : (very_high_count readings : ℚ) ≤ (high_count readings high_threshold : ℚ) := by
        have hc0 : very_high_count readings ≤ high_count readings high_threshold :=
          high_count_anti readings hh
        exact_mod_cast hc0
      exact mul_le_mul_of_nonneg_right ((div_le_div_iff_of_pos_right hlenpos).mpr hc) (by norm_num)

/-- C5, counterexample to the claim as stated (any thresholds): with
`low_threshold = 50` the reading 52 is very-low (< 54) but not low (not < 50),
so `veryLowPercent = 100 > 0 = lowPercent`. -/
theorem C5_subthresholds_cex :
    (get_glucose_time_in_range [52] 50 180).low_percent
      < (get_glucose_time_in_range [52] 50 180).very_low_percent := by
  have hne : ([52] : List ℤ) ≠ [] := by decide
  have h1 : low_count [52] 50 = 0 := by decide
  have h2 : very_low_count [52] = 1 := by decide
  have hlen : ([52] : List ℤ).length = 1 := by decide
  simp only [get_glucose_time_in_range, if_neg hne, h1, h2, hlen]
  rw [round1_eq_of_mul_ten _ 0 (by push_cast; norm_num),
    round1_eq_of_mul_ten _ 1000 (by push_cast; norm_num)]
  norm_num

/-- C5, witness: the nesting inequalities at the scenario input with the
default thresholds. -/
theorem C5_subthresholds_witness :
    (get_glucose_time_in_range [60, 100, 120, 200] 70 180).very_low_percent
      ≤ (get_glucose_time_in_range [60, 100, 120, 200] 70 180).low_percent ∧
    (get_glucose_time_in_range [60, 100, 120, 200] 70 180).very_high_percent
      ≤ (get_glucose_time_in_range [60, 100, 120, 200] 70 180).high_percent :=
  C5_subthresholds_nested [60, 100, 120, 200] 70 180 (by decide) (by decide)

/-- C10: threshold validity is never checked.  The in-range count is defined
as `total - low - high`, so the three bucket counts always sum exactly to
`total`; a value strictly between `high_threshold` and `low_threshold` (when
`low_threshold > high_threshold`) lies in both the low and the high filter,
and the in-range count and percentage can then be negative, as at reading 100
with thresholds `low = 180 > high = 70`. -/
theorem C10_in_range_complement (readings : List ℤ)
    (low_threshold high_threshold : ℤ) :
    (in_range_count readings low_threshold high_threshold
        + (low_count readings low_threshold : ℤ)
        + (high_count readings high_threshold : ℤ) = (readings.length : ℤ)) ∧
    (∀ v ∈ readings, high_threshold < v → v < low_threshold →
      v ∈ readings.filter (fun x => decide (x < low_threshold)) ∧
      v ∈ readings.filter (fun x => decide (high_threshold < x))) ∧
    in_range_count [100] 180 70 < 0 ∧
    (get_glucose_time_in_range [100] 180 70).in_range_percent < 0 := by
  refine ⟨by unfold in_range_count; ring, ?_, by decide, ?_⟩
  · intro v hv hht hlt
    exact ⟨List.mem_filter.mpr ⟨hv, by simpa using hlt⟩,
      List.mem_filter.mpr ⟨hv, by simpa using hht⟩⟩
  · have hne : ([100] : List ℤ) ≠ [] := by decide
    have hin : in_range_count [100] 180 70 = -1 := by decide
    have hlen : ([100] : List ℤ).length = 1 := by decide
    simp only [get_glucose_time_in_range, if_neg hne, hin, hlen]
    rw [round1_eq_of_mul_ten _ (-1000) (by push_cast; norm_num)]
    norm_num

/-- C10, witness: the counts and the negative percentage at reading 100 with
inverted thresholds 180/70. -/
theorem C10_in_range_complement_witness :
    (in_range_count [100] 180 70 + (low_count [100] 180 : ℤ)
        + (high_count [100] 70 : ℤ) = (([100] : List ℤ).length : ℤ)) ∧
    ((100 : ℤ) ∈ ([100] : List ℤ).filter (fun x => decide (x < 180)) ∧
     (100 : ℤ) ∈ ([100] : List ℤ).filter (fun x => decide ((70 : ℤ) < x))) ∧
    in_range_count [100] 180 70 < 0 ∧
    (get_glucose_time_in_range [100] 180 70).in_range_percent < 0 := by
  obtain ⟨h1, h2, h3, h4⟩ := C10_in_range_complement [100] 180 70
  exact ⟨h1, h2 100 (by decide) (by decide) (by decide), h3, h4⟩

/-!
## Daily summaries (`get_glucose_daily`, backend)

The endpoint groups readings by calendar date (SQL `GROUP BY date(timestamp)`,
ordered by date) and returns per date the rounded average, the minimum, the
maximum and the count.  A reading is modelled as a pair (date index, value);
`valuesOn readings d` is the SQL group of date `d`.
-/

/-- The values of the group of date `d`. -/
def valuesOn (readings : List (ℕ × ℤ)) (d : ℕ) : List ℤ :=
  (readings.filter (fun r => r.1 == d)).map Prod.snd

/-- One row of the daily-summaries response. -/
structure DailySummary where
  date : ℕ
  avg : ℤ
  min : ℤ
  max : ℤ
  count : ℕ

/-- The summary of date `d`, when the date has readings: `avg` is the SQL
average passed through Python `round`. -/
def daily_summary (readings : List (ℕ × ℤ)) (d : ℕ) : Option DailySummary :=
  if valuesOn readings d = [] then none
  else some
    { date := d
      avg := roundHalfEven (((valuesOn readings d).sum : ℚ)
        / ((valuesOn readings d).length : ℚ))
      min := ((valuesOn readings d).min?).getD 0
      max := ((valuesOn readings d).max?).getD 0
      count := (valuesOn readings d).length }

/-- `get_glucose_daily`: one summary per distinct date, dates ascending. -/
def get_glucose_daily (readings : List (ℕ × ℤ)) : List DailySummary :=
  (List.insertionSort (· ≤ ·) ((readings.map Prod.fst).dedup)).filterMap
    (daily_summary readings)

/-- C2 (amended: ties round to EVEN, not up): every date with at least one
reading yields a summary whose `avg` is the arithmetic mean of that date's
values rounded by Python `round`, i.e. round-half-to-even. -/
theorem C2_daily_avg_round_half_even (readings : List (ℕ × ℤ)) (d : ℕ)
    (h : valuesOn readings d ≠ []) :
    ∃ s ∈ get_glucose_daily readings, s.date = d ∧
      s.count = (valuesOn readings d).length ∧
      s.avg = roundHalfEven (((valuesOn readings d).sum : ℚ)
        / ((valuesOn readings d).length : ℚ)) := by
  have hfil : readings.filter (fun r => r.1 == d) ≠ [] := by
    intro hnil
    exact h (by simp [valuesOn, hnil])
  obtain ⟨r, hr⟩ := List.exists_mem_of_ne_nil _ hfil
  have hrr := List.mem_filter.mp hr
  have hd : d ∈ (readings.map Prod.fst).dedup := by
    rw [List.mem_dedup]
    exact List.mem_map.mpr ⟨r, hrr.1, by simpa using hrr.2⟩
  have hd2 : d ∈ List.insertionSort (· ≤ ·) ((readings.map Prod.fst).dedup) :=
    (List.perm_insertionSort _ _).mem_iff.mpr hd
  refine ⟨{ date := d
            avg := roundHalfEven (((valuesOn readings d).sum : ℚ)
              / ((valuesOn readings d).length : ℚ))
            min := ((valuesOn readings d).min?).getD 0
            max := ((valuesOn readings d).max?).getD 0
            count := (valuesOn readings d).length }, ?_, rfl, rfl, rfl⟩
  exact List.mem_filterMap.mpr ⟨d, hd2, by rw [daily_summary, if_neg h]⟩

/-- C2, counterexample to round-half-up: the date with values `[100, 101]`
has mean 100.5; the endpoint (Python `round`, ties to even) reports 100,
while the spec's round-half-up policy demands 101. -/
theorem C2_daily_avg_half_up_cex :
    (get_glucose_daily [(0, 100), (0, 101)]).map DailySummary.avg = [100] ∧
    roundHalfUp (((100 : ℚ) + 101) / 2) = 101 ∧ (100 : ℤ) ≠ 101 := by
  refine ⟨?_, ?_, by decide⟩
  · have hv : valuesOn [(0, 100), (0, 101)] 0 = [100, 101] := by decide
    have hne : valuesOn [(0, 100), (0, 101)] 0 ≠ [] := by rw [hv]; decide
    have hdates : List.insertionSort (· ≤ ·)
        ((([(0, 100), (0, 101)] : List (ℕ × ℤ)).map Prod.fst).dedup) = [0] := by decide
    rw [get_glucose_daily, hdates]
    simp only [List.filterMap_cons, List.filterMap_nil, daily_summary, if_neg hne, hv]
    have hsum : ([100, 101] : List ℤ).sum = 201 := by decide
    have hlen : ([100, 101] : List ℤ).length = 2 := by decide
    rw [hsum, hlen,
      roundHalfEven_tie_even _ 100 (by push_cast; norm_num) (by decide)]
    simp
  · unfold roundHalfUp
    rw [floor_eq_of_bounds _ 101 (by norm_num) (by norm_num)]

/-- C2, witness: the amended statement at the concrete two-reading input. -/
theorem C2_daily_avg_witness :
    ∃ s ∈ get_glucose_daily [(0, 100), (0, 101)], s.date = 0 ∧
      s.count = (valuesOn [(0, 100), (0, 101)] 0).length ∧
      s.avg = roundHalfEven (((valuesOn [(0, 100), (0, 101)] 0).sum : ℚ)
        / ((valuesOn [(0, 100), (0, 101)] 0).length : ℚ)) :=
  C2_daily_avg_round_half_even [(0, 100), (0, 101)] 0 (by decide)

/-!
## Hourly percentile profile (`get_glucose_agp`, backend)

The endpoint buckets readings by `timestamp.hour`, then reports per hour the
10/25/50/75/90 percentiles (absent for empty hours) and the count.  A reading
is modelled as a pair (hour of day, value).  `np.percentile` with the default
linear-interpolation method is `interpAt` applied to the sorted sample at
position `q / 100 * (n - 1)`; the code wraps every percentile in Python
`int(...)`.
-/

/-- Linear interpolation into a sample at fractional position `pos`:
`v[⌊pos⌋] + frac * (v[⌊pos⌋ + 1] - v[⌊pos⌋])` with the upper index clamped to
the last element. -/
def interpAt (s : List ℤ) (pos : ℚ) : ℚ :=
  ((s.getD (⌊pos⌋).toNat 0 : ℤ) : ℚ)
    + (pos - (⌊pos⌋ : ℚ))
      * (((s.getD (min ((⌊pos⌋).toNat + 1) (s.length - 1)) 0 : ℤ) : ℚ)
        - ((s.getD (⌊pos⌋).toNat 0 : ℤ) : ℚ))

/-- `np.percentile(values, q)` with the default linear interpolation. -/
def percentile (values : List ℤ) (q : ℚ) : ℚ :=
  interpAt (List.insertionSort (· ≤ ·) values) (q / 100 * ((values.length : ℚ) - 1))

/-- One entry of the AGP response's `hourly` array. -/
structure HourEntry where
  hour : ℕ
  p10 : Option ℤ
  p25 : Option ℤ
  median : Option ℤ
  p75 : Option ℤ
  p90 : Option ℤ
  count : ℕ
deriving DecidableEq

/-- Default entry used only as the fallback of `List.getD`. -/
def e0 : HourEntry :=
  { hour := 0, p10 := none, p25 := none, median := none, p75 := none,
    p90 := none, count := 0 }

/-- The values observed during hour `h` across all days of the window. -/
def hourValues (readings : List (ℕ × ℤ)) (h : ℕ) : List ℤ :=
  (readings.filter (fun r => r.1 == h)).map Prod.snd

/-- The entry of hour `h`: all-null with `count = 0` when the hour has no
observations, otherwise the five truncated percentiles and the count. -/
def agp_entry (readings : List (ℕ × ℤ)) (h : ℕ) : HourEntry :=
  if hourValues readings h = [] then
    { hour := h, p10 := none, p25 := none, median := none, p75 := none,
      p90 := none, count := 0 }
  else
    { hour := h
      p10 := some (int_trunc (percentile (hourValues readings h) 10))
      p25 := some (int_trunc (percentile (hourValues readings h) 25))
      median := some (int_trunc (percentile (hourValues readings h) 50))
      p75 := some (int_trunc (percentile (hourValues readings h) 75))
      p90 := some (int_trunc (percentile (hourValues readings h) 90))
      count := (hourValues readings h).length }

/-- `get_glucose_agp`: the `hourly` array, one entry per hour 0..23. -/
def get_glucose_agp (readings : List (ℕ × ℤ)) : List HourEntry :=
  (List.range 24).map (agp_entry readings)

lemma getD_mem : ∀ (l : List ℤ) (j : ℕ), j < l.length → l.getD j 0 ∈ l := by
  intro l
  induction l with
  | nil => intro j hj; simp at hj
  | cons a t ih =>
    intro j hj
    cases j with
    | zero => simp
    | succ j =>
      rw [List.getD_cons_succ]
      exact List.mem_cons_of_mem a (ih j (by simpa using hj))

lemma sorted_getD_le : ∀ {s : List ℤ}, List.Sorted (· ≤ ·) s →
    ∀ i j : ℕ, i ≤ j → j < s.length → s.getD i 0 ≤ s.getD j 0 := by
  intro s
  induction s with
  | nil => intro _ i j _ hj; simp at hj
  | cons a t ih =>
    intro hs i j hij hj
    rw [List.sorted_cons] at hs
    cases i with
    | zero =>
      cases j with
      | zero => exact le_refl _
      | succ j =>
        rw [List.getD_cons_zero, List.getD_cons_succ]
        exact hs.1 _ (getD_mem t j (by simpa using hj))
    | succ i =>
      cases j with
      | zero => omega
      | succ j =>
        rw [List.getD_cons_succ, List.getD_cons_succ]
        exact ih hs.2 i j (by omega) (by simpa using hj)

/-- On a sorted sample, linear interpolation is monotone in the position. -/
lemma interpAt_mono {s : List ℤ} (hs : List.Sorted (· ≤ ·) s) {p1 p2 : ℚ}
    (h0 : 0 ≤ p1) (h12 : p1 ≤ p2) (hn : p2 ≤ (s.length : ℚ) - 1) :
    interpAt s p1 ≤ interpAt s p2 := by
  have h02 : 0 ≤ p2 := le_trans h0 h12
  have hn1 : (1 : ℚ) ≤ (s.length : ℚ) := by linarith
  have hnn : 1 ≤ s.length := by exact_mod_cast hn1
  have hf1 : 0 ≤ ⌊p1⌋ := Int.floor_nonneg.mpr h0
  have hf2 : 0 ≤ ⌊p2⌋ := Int.floor_nonneg.mpr h02
  have hc1 : ((⌊p1⌋).toNat : ℤ) = ⌊p1⌋ := Int.toNat_of_nonneg hf1
  have hc2 : ((⌊p2⌋).toNat : ℤ) = ⌊p2⌋ := Int.toNat_of_nonneg hf2
  have hl12 : (⌊p1⌋).toNat ≤ (⌊p2⌋).toNat := by
    have := Int.floor_le_floor h12
    omega
  have hub2 : (⌊p2⌋).toNat ≤ s.length - 1 := by
    have hfle : ⌊p2⌋ ≤ ⌊(s.length : ℚ) - 1⌋ := Int.floor_le_floor hn
    have hcast : ⌊(s.length : ℚ) - 1⌋ = (s.length : ℤ) - 1 := by
      rw [show ((s.length : ℚ) - 1) = (((s.length : ℤ) - 1 : ℤ) : ℚ) by push_cast; ring,
        Int.floor_intCast]
    omega
  have hub1 : (⌊p1⌋).toNat ≤ s.length - 1 := le_trans hl12 hub2
  have hfr1a : 0 ≤ p1 - (⌊p1⌋ : ℚ) := by linarith [Int.floor_le p1]
  have hfr1b : p1 - (⌊p1⌋ : ℚ) ≤ 1 := by linarith [Int.lt_floor_add_one p1]
  have hfr2a : 0 ≤ p2 - (⌊p2⌋ : ℚ) := by linarith [Int.floor_le p2]
  have hv1 : s.getD (⌊p1⌋).toNat 0 ≤ s.getD (min ((⌊p1⌋).toNat + 1) (s.length - 1)) 0 :=
    sorted_getD_le hs _ _ (by omega) (by omega)
  have hv2 : s.getD (⌊p2⌋).toNat 0 ≤ s.getD (min ((⌊p2⌋).toNat + 1) (s.length - 1)) 0 :=
    sorted_getD_le hs _ _ (by omega) (by omega)
  have hv1q : ((s.getD (⌊p1⌋).toNat 0 : ℤ) : ℚ)
      ≤ ((s.getD (min ((⌊p1⌋).toNat + 1) (s.length - 1)) 0 : ℤ) : ℚ) := by
    exact_mod_cast hv1
  have hv2q : ((s.getD (⌊p2⌋).toNat 0 : ℤ) : ℚ)
      ≤ ((s.getD (min ((⌊p2⌋).toNat + 1) (s.length - 1)) 0 : ℤ) : ℚ) := by
    exact_mod_cast hv2
  unfold interpAt
  by_cases hff : ⌊p1⌋ = ⌊p2⌋
  · rw [← hff]
    have hfr : p1 - (⌊p1⌋ : ℚ) ≤ p2 - (⌊p1⌋ : ℚ) := by linarith
    nlinarith [mul_le_mul_of_nonneg_right hfr (sub_nonneg.mpr hv1q)]
  · have hlt : ⌊p1⌋ < ⌊p2⌋ := lt_of_le_of_ne (Int.floor_le_floor h12) hff
    have hmid : s.getD (min ((⌊p1⌋).toNat + 1) (s.length - 1)) 0
        ≤ s.getD (⌊p2⌋).toNat 0 :=
      sorted_getD_le hs _ _ (by omega) (by omega)
    have hmidq : ((s.getD (min ((⌊p1⌋).toNat + 1) (s.length - 1)) 0 : ℤ) : ℚ)
        ≤ ((s.getD (⌊p2⌋).toNat 0 : ℤ) : ℚ) := by exact_mod_cast hmid
    nlinarith [mul_le_mul_of_nonneg_right hfr1b (sub_nonneg.mpr hv1q),
      mul_le_mul_of_nonneg_left (sub_nonneg.mpr hv2q) hfr2a]

/-- `percentile` is monotone in `q` on a non-empty sample. -/
lemma percentile_mono {values : List ℤ} (hne : values ≠ []) {q1 q2 : ℚ}
    (h0 : 0 ≤ q1) (h12 : q1 ≤ q2) (h100 : q2 ≤ 100) :
    percentile values q1 ≤ percentile values q2 := by
  unfold percentile
  have hlen : 1 ≤ values.length := List.length_pos.mpr hne
  have hlenq : (1 : ℚ) ≤ (values.length : ℚ) := by exact_mod_cast hlen
  have hslen : (List.insertionSort (· ≤ ·) values).length = values.length :=
    List.length_insertionSort _ _
  apply interpAt_mono (List.sorted_insertionSort _ _)
  · exact mul_nonneg (div_nonneg h0 (by norm_num)) (by linarith)
  · exact mul_le_mul_of_nonneg_right (by linarith) (by linarith)
  · rw [hslen]
    have hq : q2 / 100 ≤ 1 := by linarith
    nlinarith

/-- Evaluation of `percentile` on a sorted two-element sample below `q = 100`. -/
lemma percentile_pair (a b : ℤ) (hab : a ≤ b) (q : ℚ) (h0 : 0 ≤ q) (hq : q < 100) :
    percentile [a, b] q = (a : ℚ) + q / 100 * ((b : ℚ) - (a : ℚ)) := by
  unfold percentile interpAt
  have hsort : List.insertionSort (· ≤ ·) [a, b] = [a, b] := by
    simp [List.insertionSort, List.orderedInsert, hab]
  rw [hsort]
  have hpos : q / 100 * ((([a, b] : List ℤ).length : ℚ) - 1) = q / 100 := by
    have h2 : (([a, b] : List ℤ).length : ℚ) = 2 := by simp
    rw [h2]; ring
  rw [hpos]
  have hfl : ⌊q / 100⌋ = 0 :=
    floor_eq_of_bounds _ 0 (by positivity) (by push_cast; linarith)
  rw [hfl]
  norm_num

lemma agp_getD (readings : List (ℕ × ℤ)) (i : ℕ) (hi : i < 24) :
    (get_glucose_agp readings).getD i e0 = agp_entry readings i := by
  unfold get_glucose_agp
  rw [List.getD_eq_getElem?_getD, List.getElem?_map, List.getElem?_range hi]
  rfl

/-- C7: for every input the hourly profile has exactly 24 entries, the entry
at index `i` is the entry of hour `i` (hours ascending 0..23), and an hour
with no observations is emitted with `count = 0` and all five percentile
fields absent — never omitted, and the function is total. -/
theorem C7_agp_exactly_24_entries (readings : List (ℕ × ℤ)) :
    (get_glucose_agp readings).length = 24 ∧
    (∀ i : ℕ, i < 24 →
      ((get_glucose_agp readings).getD i e0).hour = i ∧
      (hourValues readings i = [] →
        (get_glucose_agp readings).getD i e0 =
          { hour := i, p10 := none, p25 := none, median := none,
            p75 := none, p90 := none, count := 0 })) := by
  refine ⟨by simp [get_glucose_agp], fun i hi => ?_⟩
  rw [agp_getD readings i hi]
  constructor
  · unfold agp_entry
    split <;> rfl
  · intro hv
    unfold agp_entry
    rw [if_pos hv]

/-- C7, witness: at the empty input, hour 0 of the 24-entry output. -/
theorem C7_agp_exactly_24_entries_witness :
    (get_glucose_agp []).length = 24 ∧
    ((get_glucose_agp []).getD 0 e0).hour = 0 ∧
    (get_glucose_agp []).getD 0 e0 =
      { hour := 0, p10 := none, p25 := none, median := none,
        p75 := none, p90 := none, count := 0 } := by
  obtain ⟨h1, h2⟩ := C7_agp_exactly_24_entries []
  obtain ⟨h3, h4⟩ := h2 0 (by decide)
  exact ⟨h1, h3, h4 (by decide)⟩

/-- C6: in every hour entry with observations the five percentiles are
ordered `p10 ≤ p25 ≤ median ≤ p75 ≤ p90` (interpolation into the sorted
sample is monotone in `q`, and truncation is monotone); and for hour-8 values
`[80, 90]` across two days the reported median is 85. -/
theorem C6_agp_percentiles_ordered :
    (∀ (readings : List (ℕ × ℤ)), ∀ e ∈ get_glucose_agp readings, 0 < e.count →
      ∃ a b c d f, e.p10 = some a ∧ e.p25 = some b ∧ e.median = some c ∧
        e.p75 = some d ∧ e.p90 = some f ∧ a ≤ b ∧ b ≤ c ∧ c ≤ d ∧ d ≤ f) ∧
    ((get_glucose_agp [(8, 80), (8, 90)]).getD 8 e0).median = some 85 := by
  constructor
  · intro readings e he hc
    unfold get_glucose_agp at he
    obtain ⟨h, hh, hrfl⟩ := List.mem_map.mp he
    subst hrfl
    by_cases hv : hourValues readings h = []
    · simp [agp_entry, hv] at hc
    · unfold agp_entry
      rw [if_neg hv]
      exact ⟨_, _, _, _, _, rfl, rfl, rfl, rfl, rfl,
        int_trunc_mono (percentile_mono hv (by norm_num) (by norm_num) (by norm_num)),
        int_trunc_mono (percentile_mono hv (by norm_num) (by norm_num) (by norm_num)),
        int_trunc_mono (percentile_mono hv (by norm_num) (by norm_num) (by norm_num)),
        int_trunc_mono (percentile_mono hv (by norm_num) (by norm_num) (by norm_num))⟩
  · rw [agp_getD _ 8 (by norm_num)]
    have hv : hourValues [(8, 80), (8, 90)] 8 = [80, 90] := by decide
    have hne2 : hourValues [(8, 80), (8, 90)] 8 ≠ [] := by rw [hv]; decide
    unfold agp_entry
    rw [if_neg hne2]
    show some (int_trunc (percentile (hourValues [(8, 80), (8, 90)] 8) 50)) = some 85
    rw [hv, percentile_pair 80 90 (by decide) 50 (by norm_num) (by norm_num)]
    rw [show ((80 : ℤ) : ℚ) + 50 / 100 * (((90 : ℤ) : ℚ) - ((80 : ℤ) : ℚ))
        = ((85 : ℤ) : ℚ) by push_cast; norm_num]
    rw [int_trunc_intCast]

/-- C6, witness: the ordered percentiles at the concrete two-day input. -/
theorem C6_agp_percentiles_ordered_witness :
    ∃ a b c d f, (agp_entry [(8, 80), (8, 90)] 8).p10 = some a ∧
      (agp_entry [(8, 80), (8, 90)] 8).p25 = some b ∧
      (agp_entry [(8, 80), (8, 90)] 8).median = some c ∧
      (agp_entry [(8, 80), (8, 90)] 8).p75 = some d ∧
      (agp_entry [(8, 80), (8, 90)] 8).p90 = some f ∧
      a ≤ b ∧ b ≤ c ∧ c ≤ d ∧ d ≤ f :=
  (C6_agp_percentiles_ordered).1 [(8, 80), (8, 90)] (agp_entry [(8, 80), (8, 90)] 8)
    (by unfold get_glucose_agp
        exact List.mem_map_of_mem _ (by decide))
    (by decide)

/-- C3 (amended: percentiles are TRUNCATED toward zero by Python `int(...)`,
not rounded to nearest): every hour entry with observations carries the five
linear-interpolation percentiles of that hour's values, each truncated. -/
theorem C3_agp_percentile_truncated (readings : List (ℕ × ℤ)) (e : HourEntry)
    (he : e ∈ get_glucose_agp readings) (hc : 0 < e.count) :
    e.p10 = some (int_trunc (percentile (hourValues readings e.hour) 10)) ∧
    e.p25 = some (int_trunc (percentile (hourValues readings e.hour) 25)) ∧
    e.median = some (int_trunc (percentile (hourValues readings e.hour) 50)) ∧
    e.p75 = some (int_trunc (percentile (hourValues readings e.hour) 75)) ∧
    e.p90 = some (int_trunc (percentile (hourValues readings e.hour) 90)) := by
  unfold get_glucose_agp at he
  obtain ⟨h, hh, hrfl⟩ := List.mem_map.mp he
  subst hrfl
  by_cases hv : hourValues readings h = []
  · simp [agp_entry, hv] at hc
  · have hhour : (agp_entry readings h).hour = h := by
      unfold agp_entry; split <;> rfl
    rw [hhour]
    unfold agp_entry
    rw [if_neg hv]
    exact ⟨rfl, rfl, rfl, rfl, rfl⟩

/-- C3, counterexample to rounding-to-nearest: hour-8 values `[80, 86]` have
10th percentile 80.6; the endpoint reports `int(80.6) = 80`, but 81 is the
nearest integer (distance 0.4 versus 0.6). -/
theorem C3_agp_rounding_cex :
    ((get_glucose_agp [(8, 80), (8, 86)]).getD 8 e0).p10 = some 80 ∧
    percentile (hourValues [(8, 80), (8, 86)] 8) 10 = 403/5 ∧
    (403/5 : ℚ) - 80 = 3/5 ∧ (81 : ℚ) - 403/5 = 2/5 ∧ (2/5 : ℚ) < 3/5 ∧
    (80 : ℤ) ≠ 81 := by
  have hv : hourValues [(8, 80), (8, 86)] 8 = [80, 86] := by decide
  have hne2 : hourValues [(8, 80), (8, 86)] 8 ≠ [] := by rw [hv]; decide
  have hp : percentile (hourValues [(8, 80), (8, 86)] 8) 10 = 403/5 := by
    rw [hv, percentile_pair 80 86 (by decide) 10 (by norm_num) (by norm_num)]
    push_cast; norm_num
  refine ⟨?_, hp, by norm_num, by norm_num, by norm_num, by decide⟩
  rw [agp_getD _ 8 (by norm_num)]
  unfold agp_entry
  rw [if_neg hne2]
  show some (int_trunc (percentile (hourValues [(8, 80), (8, 86)] 8) 10)) = some 80
  rw [hp]
  unfold int_trunc
  rw [if_pos (by norm_num : (0 : ℚ) ≤ 403/5),
    floor_eq_of_bounds _ 80 (by norm_num) (by norm_num)]

/-- C3, witness: the truncated percentiles at the concrete input. -/
theorem C3_agp_percentile_truncated_witness :
    (agp_entry [(8, 80), (8, 86)] 8).p10
      = some (int_trunc (percentile
          (hourValues [(8, 80), (8, 86)] (agp_entry [(8, 80), (8, 86)] 8).hour) 10)) ∧
    (agp_entry [(8, 80), (8, 86)] 8).p25
      = some (int_trunc (percentile
          (hourValues [(8, 80), (8, 86)] (agp_entry [(8, 80), (8, 86)] 8).hour) 25)) ∧
    (agp_entry [(8, 80), (8, 86)] 8).median
      = some (int_trunc (percentile
          (hourValues [(8, 80), (8, 86)] (agp_entry [(8, 80), (8, 86)] 8).hour) 50)) ∧
    (agp_entry [(8, 80), (8, 86)] 8).p75
      = some (int_trunc (percentile
          (hourValues [(8, 80), (8, 86)] (agp_entry [(8, 80), (8, 86)] 8).hour) 75)) ∧
    (agp_entry [(8, 80), (8, 86)] 8).p90
      = some (int_trunc (percentile
          (hourValues [(8, 80), (8, 86)] (agp_entry [(8, 80), (8, 86)] 8).hour) 90)) :=
  C3_agp_percentile_truncated [(8, 80), (8, 86)] (agp_entry [(8, 80), (8, 86)] 8)
    (by unfold get_glucose_agp
        exact List.mem_map_of_mem _ (by decide))
    (by decide)

/-!
## Trend line (`linearRegression`, frontend `Correlations.tsx`)

`linearRegression` accumulates `sumX`, `sumY`, `sumXY`, `sumX2` over the
correlation points and solves the ordinary-least-squares equations, guarding
against fewer than 2 points and a zero denominator.
-/

/-- A point of the correlations scatter (its date tag plays no role here). -/
structure CorrelationPoint where
  date : ℕ
  x : ℚ
  y : ℚ

/-- The `{ slope, intercept }` object returned for the trend line. -/
structure TrendLine where
  slope : ℚ
  intercept : ℚ

def sumX (points : List CorrelationPoint) : ℚ :=
  (points.map (fun p => p.x)).sum

def sumY (points : List CorrelationPoint) : ℚ :=
  (points.map (fun p => p.y)).sum

def sumXY (points : List CorrelationPoint) : ℚ :=
  (points.map (fun p => p.x * p.y)).sum

def sumX2 (points : List CorrelationPoint) : ℚ :=
  (points.map (fun p => p.x * p.x)).sum

/-- `denom = n * sumX2 - sumX * sumX`. -/
def lr_denom (points : List CorrelationPoint) : ℚ :=
  (points.length : ℚ) * sumX2 points - sumX points * sumX points

/-- `slope = (n * sumXY - sumX * sumY) / denom`. -/
def lr_slope (points : List CorrelationPoint) : ℚ :=
  ((points.length : ℚ) * sumXY points - sumX points * sumY points) / lr_denom points

/-- `intercept = (sumY - slope * sumX) / n`. -/
def lr_intercept (points : List CorrelationPoint) : ℚ :=
  (sumY points - lr_slope points * sumX points) / (points.length : ℚ)

/-- `linearRegression`: null on fewer than 2 points or a zero denominator,
otherwise the least-squares slope and intercept. -/
def linearRegression (points : List CorrelationPoint) : Option TrendLine :=
  if points.length < 2 then none
  else if lr_denom points = 0 then none
  else some { slope := lr_slope points, intercept := lr_intercept points }

/-- The ordinary-least-squares normal equations over the `{x, y}` pairs,
stated from the spec's words for comparison with `linearRegression`. -/
def normalEquations (points : List CorrelationPoint) (slope intercept : ℚ) : Prop :=
  slope * sumX2 points + intercept * sumX points = sumXY points ∧
  slope * sumX points + intercept * (points.length : ℚ) = sumY points

lemma sum_sq_dev (l : List ℚ) (c : ℚ) :
    (l.map (fun x => (x - c) * (x - c))).sum
      = (l.map (fun x => x * x)).sum - 2 * c * l.sum + (l.length : ℚ) * (c * c) := by
  induction l with
  | nil => simp
  | cons a t ih =>
    simp only [List.map_cons, List.sum_cons, List.length_cons, ih]
    push_cast
    ring

lemma denom_as_deviations (points : List CorrelationPoint)
    (hn : (points.length : ℚ) ≠ 0) :
    lr_denom points = (points.length : ℚ)
      * ((points.map (fun p =>
          (p.x - sumX points / (points.length : ℚ))
            * (p.x - sumX points / (points.length : ℚ)))).sum) := by
  have key := sum_sq_dev (points.map (fun p => p.x)) (sumX points / (points.length : ℚ))
  rw [List.map_map, List.map_map, List.length_map] at key
  simp only [Function.comp_def] at key
  unfold lr_denom sumX2
  rw [key]
  unfold sumX
  field_simp
  ring

lemma lr_denom_pos (points : List CorrelationPoint) (hn : 0 < points.length)
    (hne : ∃ p ∈ points, ∃ q ∈ points, p.x ≠ q.x) :
    0 < lr_denom points := by
  obtain ⟨p, hp, q, hq, hpq⟩ := hne
  have hnq : ((points.length : ℚ)) ≠ 0 := by
    have : (0 : ℚ) < (points.length : ℚ) := by exact_mod_cast hn
    exact this.ne'
  set c := sumX points / (points.length : ℚ) with hc
  have hdev : ∃ r ∈ points, r.x ≠ c := by
    by_cases hpc : p.x = c
    · exact ⟨q, hq, fun hqc => hpq (by rw [hpc, hqc])⟩
    · exact ⟨p, hp, hpc⟩
  obtain ⟨r, hr, hrc⟩ := hdev
  have hterm : 0 < (r.x - c) * (r.x - c) :=
    mul_self_pos.mpr (sub_ne_zero.mpr hrc)
  have hsum : 0 < (points.map (fun s => (s.x - c) * (s.x - c))).sum := by
    have hmem : (r.x - c) * (r.x - c) ∈ points.map (fun s => (s.x - c) * (s.x - c)) :=
      List.mem_map_of_mem _ hr
    have hnonneg : ∀ z ∈ points.map (fun s => (s.x - c) * (s.x - c)), 0 ≤ z := by
      intro z hz
      obtain ⟨s, _, rfl⟩ := List.mem_map.mp hz
      exact mul_self_nonneg _
    calc (0 : ℚ) < (r.x - c) * (r.x - c) := hterm
      _ ≤ _ := List.single_le_sum hnonneg _ hmem
  rw [denom_as_deviations points hnq, ← hc]
  exact mul_pos (by exact_mod_cast hn) hsum

lemma normalEq_holds (points : List CorrelationPoint)
    (hn : (points.length : ℚ) ≠ 0) (hd : lr_denom points ≠ 0) :
    normalEquations points (lr_slope points) (lr_intercept points) := by
  have hD : lr_denom points
      = (points.length : ℚ) * sumX2 points - sumX points * sumX points := rfl
  constructor
  · show lr_slope points * sumX2 points + lr_intercept points * sumX points
      = sumXY points
    unfold lr_intercept lr_slope
    rw [hD] at hd
    unfold lr_denom
    field_simp
    ring
  · show lr_slope points * sumX points + lr_intercept points * (points.length : ℚ)
      = sumY points
    unfold lr_intercept
    field_simp

lemma normalEq_unique (points : List CorrelationPoint)
    (hn : (points.length : ℚ) ≠ 0) (hd : lr_denom points ≠ 0) (s i : ℚ)
    (h : normalEquations points s i) :
    s = lr_slope points ∧ i = lr_intercept points := by
  obtain ⟨h1, h2⟩ := h
  obtain ⟨g1, g2⟩ := normalEq_holds points hn hd
  have hs : (s - lr_slope points) * lr_denom points = 0 := by
    have hD : lr_denom points
        = (points.length : ℚ) * sumX2 points - sumX points * sumX points := rfl
    rw [hD]
    linear_combination (points.length : ℚ) * (h1 - g1) - sumX points * (h2 - g2)
  have hs2 : s = lr_slope points := by
    rcases mul_eq_zero.mp hs with h0 | h0
    · exact sub_eq_zero.mp h0
    · exact absurd h0 hd
  refine ⟨hs2, ?_⟩
  have hi : i * (points.length : ℚ) = sumY points - s * sumX points := by
    linarith [h2]
  rw [hs2] at hi
  unfold lr_intercept
  rw [eq_div_iff hn]
  linarith [hi]

/-- C9: with at least 2 points whose x-values are not all equal,
`linearRegression` returns the unique solution of the least-squares normal
equations; with fewer than 2 points, or all x equal (zero variance, i.e. zero
denominator), it returns null. -/
theorem C9_linear_regression_ols (points : List CorrelationPoint) :
    (points.length < 2 → linearRegression points = none) ∧
    ((∀ p ∈ points, ∀ q ∈ points, p.x = q.x) → linearRegression points = none) ∧
    (2 ≤ points.length → (∃ p ∈ points, ∃ q ∈ points, p.x ≠ q.x) →
      ∃ tl, linearRegression points = some tl ∧
        normalEquations points tl.slope tl.intercept ∧
        ∀ s i, normalEquations points s i → s = tl.slope ∧ i = tl.intercept) := by
  refine ⟨?_, ?_, ?_⟩
  · intro h
    unfold linearRegression
    rw [if_pos h]
  · intro hall
    by_cases hlen : points.length < 2
    · unfold linearRegression
      rw [if_pos hlen]
    · have hn0 : points ≠ [] := by
        intro h
        subst h
        exact hlen (by simp)
      have hc : ∀ p ∈ points, p.x = (points.head hn0).x :=
        fun p hp => hall p hp _ (List.head_mem hn0)
    -- all x equal forces a zero denominator
      have hmapx : ∀ z ∈ points.map (fun p => p.x), z = (points.head hn0).x := by
        intro z hz
        obtain ⟨p, hp, rfl⟩ := List.mem_map.mp hz
        exact hc p hp
      have hmapx2 : ∀ z ∈ points.map (fun p => p.x * p.x),
          z = (points.head hn0).x * (points.head hn0).x := by
        intro z hz
        obtain ⟨p, hp, rfl⟩ := List.mem_map.mp hz
        rw [hc p hp]
      have hsx : sumX points = (points.length : ℚ) * (points.head hn0).x := by
        unfold sumX
        rw [List.sum_eq_card_nsmul _ _ hmapx, List.length_map, nsmul_eq_mul]
      have hsx2 : sumX2 points
          = (points.length : ℚ) * ((points.head hn0).x * (points.head hn0).x) := by
        unfold sumX2
        rw [List.sum_eq_card_nsmul _ _ hmapx2, List.length_map, nsmul_eq_mul]
      have hdenom : lr_denom points = 0 := by
        unfold lr_denom
        rw [hsx, hsx2]
        ring
      unfold linearRegression
      rw [if_neg hlen, if_pos hdenom]
  · intro hlen hex
    have hpos : 0 < points.length := by omega
    have hn : ((points.length : ℚ)) ≠ 0 := by
      have : (0 : ℚ) < (points.length : ℚ) := by exact_mod_cast hpos
      exact this.ne'
    have hd := lr_denom_pos points hpos hex
    unfold linearRegression
    rw [if_neg (by omega : ¬points.length < 2), if_neg hd.ne']
    exact ⟨_, rfl, normalEq_holds points hn hd.ne',
      fun s i hsi => normalEq_unique points hn hd.ne' s i hsi⟩

/-- C9, witness: the two points (0,0), (1,1) produce a defined trend line
solving the normal equations uniquely. -/
theorem C9_linear_regression_ols_witness :
    ∃ tl, linearRegression
        [{ date := 0, x := 0, y := 0 }, { date := 0, x := 1, y := 1 }] = some tl ∧
      normalEquations [{ date := 0, x := 0, y := 0 }, { date := 0, x := 1, y := 1 }]
        tl.slope tl.intercept ∧
      ∀ s i, normalEquations
          [{ date := 0, x := 0, y := 0 }, { date := 0, x := 1, y := 1 }] s i →
        s = tl.slope ∧ i = tl.intercept :=
  (C9_linear_regression_ols _).2.2 (by decide)
    ⟨{ date := 0, x := 0, y := 0 }, by simp,
     { date := 0, x := 1, y := 1 }, by simp, by norm_num⟩
